import Mathlib

deriving instance DecidableEq for Except

set_option maxRecDepth 40000

/-!
Verification of the RTMP chunk-stream decoder of the `scuffle` repository.

The decoder implementation (`ChunkDecoder` in the `rtmp` crate's `chunk` module) is not
present in the source snapshot; only its test suite (`chunk/tests/decoder.rs`,
`netstream/tests.rs`) is.  The decoder is therefore modelled from the specification
(§3–§6 of the spec), with every behavioural choice cross-checked against the test
suite, which is authoritative source code.

Bytes are modelled as `Nat` (wire values are < 256), buffers as `List Nat`, and the
mutable decoder as explicit state passed through `read_chunk`, which returns the
emitted chunk (if any), the new decoder state and the unconsumed remainder of the
buffer.
-/

namespace Rtmp

/-- Modelled from the spec (§4.4): maximum number of concurrently in-flight messages.
Reference value 4, confirmed by `test_decoder_error_too_many_partial_chunks`. -/
def MAX_PARTIAL_CHUNKS : Nat := 4

/-- Modelled from the spec (§4.4): maximum number of distinct chunk stream ids in the
last-header cache.  Reference value 100, confirmed by
`test_decoder_error_too_many_chunk_headers`. -/
def MAX_PREVIOUS_CHUNK_HEADERS : Nat := 100

/-- Modelled from the spec (§4.2): bound on a declared message length.  The spec leaves
the constant implementation-defined ("large enough for normal media payloads yet small
enough to prevent memory amplification"); the tests force `0xFFFFFF` to exceed it while
`0x0F00` (3840) passes.  We use 10 MiB. -/
def MAX_PARTIAL_PAYLOAD_SIZE : Nat := 10 * 1024 * 1024

/-- Modelled from the spec (§3): the recognized RTMP message type ids
(set-chunk-size, abort, ack, user-control, window-ack-size, set-peer-bw, audio, video,
amf3-data, amf3-shared-object, amf3-command, amf0-data, amf0-shared-object,
amf0-command, aggregate).  Unknown values are a hard error. -/
def validMsgTypeID (b : Nat) : Bool :=
  b == 1 || b == 2 || b == 3 || b == 4 || b == 5 || b == 6 || b == 8 || b == 9 ||
  b == 15 || b == 16 || b == 17 || b == 18 || b == 19 || b == 20 || b == 22

/-- Error taxonomy of the decoder (spec §4.6); the `IO` variant is omitted since the
model has no transport. -/
inductive ChunkDecodeError where
  | InvalidChunkType (n : Nat)
  | InvalidMessageTypeID (n : Nat)
  | MissingPreviousChunkHeader (csid : Nat)
  | TooManyPartialChunks
  | TooManyPreviousChunkHeaders
  | PartialChunkTooLarge (len : Nat)
  | TimestampOverflow (base delta : Nat)
  deriving Repr, DecidableEq

/-- Basic header: 2-bit format and chunk stream id (spec §4.1). -/
structure ChunkBasicHeader where
  format : Nat
  chunk_stream_id : Nat
  deriving Repr, DecidableEq

/-- Message header, always fully materialized after decode (spec §3).  The
`was_extended_timestamp` flag records whether the header used the 4-byte
extended-timestamp form; it governs format-3 chunks on the same stream. -/
structure ChunkMessageHeader where
  timestamp : Nat
  msg_length : Nat
  msg_type_id : Nat
  msg_stream_id : Nat
  was_extended_timestamp : Bool
  deriving Repr, DecidableEq

/-- A fully reassembled chunk as handed to the caller. -/
structure Chunk where
  basic_header : ChunkBasicHeader
  message_header : ChunkMessageHeader
  payload : List Nat
  deriving Repr, DecidableEq

/-- Association-list lookup keyed by chunk stream id. -/
def alookup {α : Type} (k : Nat) : List (Nat × α) → Option α
  | [] => none
  | (k', v) :: rest => if k' = k then some v else alookup k rest

/-- Association-list insert/replace keyed by chunk stream id. -/
def ainsert {α : Type} (k : Nat) (v : α) : List (Nat × α) → List (Nat × α)
  | [] => [(k, v)]
  | (k', v') :: rest => if k' = k then (k, v) :: rest else (k', v') :: ainsert k v rest

/-- Association-list removal keyed by chunk stream id. -/
def aremove {α : Type} (k : Nat) : List (Nat × α) → List (Nat × α)
  | [] => []
  | (k', v') :: rest => if k' = k then rest else (k', v') :: aremove k rest

/-- Decoder state (spec §2–§3): chunk-size parameter, per-stream last-header cache, and
per-stream partial payload buffers. -/
structure ChunkDecoder where
  max_chunk_size : Nat
  previous_chunk_headers : List (Nat × ChunkMessageHeader)
  partial_chunks : List (Nat × List Nat)
  deriving Repr, DecidableEq

/-- A fresh decoder: `chunk_size = 128`, empty caches (spec §3 lifecycle). -/
def ChunkDecoder.default : ChunkDecoder := ⟨128, [], []⟩

/-- `update_max_chunk_size` replaces the fragment size (spec §4.5). -/
def ChunkDecoder.update_max_chunk_size (d : ChunkDecoder) (n : Nat) : ChunkDecoder :=
  { d with max_chunk_size := n }

/-- Read one byte. -/
def readU8 : List Nat → Option (Nat × List Nat)
  | [] => none
  | b :: rest => some (b, rest)

/-- Read a 24-bit big-endian integer. -/
def readU24BE : List Nat → Option (Nat × List Nat)
  | b0 :: b1 :: b2 :: rest => some (b0 * 65536 + b1 * 256 + b2, rest)
  | _ => none

/-- Read a 32-bit big-endian integer. -/
def readU32BE : List Nat → Option (Nat × List Nat)
  | b0 :: b1 :: b2 :: b3 :: rest =>
    some (((b0 * 256 + b1) * 256 + b2) * 256 + b3, rest)
  | _ => none

/-- Read a 32-bit little-endian integer (the `msg_stream_id` exception, spec §6). -/
def readU32LE : List Nat → Option (Nat × List Nat)
  | b0 :: b1 :: b2 :: b3 :: rest =>
    some (((b3 * 256 + b2) * 256 + b1) * 256 + b0, rest)
  | _ => none

/-- Modelled from the spec (§4.2): read the 4-byte big-endian extended timestamp when
the 24-bit timestamp/delta field equals `0xFFFFFF`; otherwise the field itself is the
value and nothing is consumed. -/
def readTsExt (tsField : Nat) (buf : List Nat) : Option (Nat × List Nat) :=
  if tsField = 16777215 then readU32BE buf else some (tsField, buf)

/-- Modelled from the spec (§4.1): basic-header reader.  `format = b0 >> 6`,
`cs_low = b0 & 0x3F`; `cs_low = 0` selects the 2-byte form (`64 + byte1`), `cs_low = 1`
the 3-byte form (`64 + byte1 + 256 * byte2`), otherwise the id is inline.  Returns
`none` (without consuming) if the buffer is too short for the chosen encoding. -/
def readBasicHeader : List Nat → Option (ChunkBasicHeader × List Nat)
  | [] => none
  | b0 :: rest =>
    if b0 % 64 = 0 then
      match rest with
      | [] => none
      | b1 :: rest2 => some (⟨b0 / 64, 64 + b1⟩, rest2)
    else if b0 % 64 = 1 then
      match rest with
      | b1 :: b2 :: rest2 => some (⟨b0 / 64, 64 + b1 + 256 * b2⟩, rest2)
      | _ => none
    else
      some (⟨b0 / 64, b0 % 64⟩, rest)

/-- Modelled from the spec (§4.2): message-header reader.  Consumes 11/7/3/0 bytes by
format, plus a 4-byte big-endian extended timestamp when the 24-bit field is
`0xFFFFFF` (for format 3: when the prior header on the stream used the extended form,
in which case the 4 bytes are read and discarded).  Formats 1–3 require a cache entry
(`MissingPreviousChunkHeader` otherwise); deltas are added to the cached timestamp as a
checked 32-bit addition (`TimestampOverflow` on wrap); the materialized `msg_type_id`
must be recognized (`InvalidMessageTypeID`); a successful full parse of a format-0/1/2
header replaces the cache entry, a new stream id being admitted only while the cache
holds fewer than `MAX_PREVIOUS_CHUNK_HEADERS` entries (`TooManyPreviousChunkHeaders`).
Returns `.ok none` when the buffer is too short. -/
def readMessageHeader (d : ChunkDecoder) (bh : ChunkBasicHeader) (buf : List Nat) :
    Except ChunkDecodeError (Option (ChunkMessageHeader × ChunkDecoder × List Nat)) :=
  if bh.format = 0 then
    match readU24BE buf with
    | none => .ok none
    | some (tsField, r1) =>
      match readU24BE r1 with
      | none => .ok none
      | some (len, r2) =>
        match readU8 r2 with
        | none => .ok none
        | some (tid, r3) =>
          match readU32LE r3 with
          | none => .ok none
          | some (sid, r4) =>
            match readTsExt tsField r4 with
            | none => .ok none
            | some (ts, r5) =>
              if validMsgTypeID tid then
                let mh : ChunkMessageHeader := ⟨ts, len, tid, sid, tsField = 16777215⟩
                match alookup bh.chunk_stream_id d.previous_chunk_headers with
                | some _ =>
                  .ok (some (mh,
                    { d with previous_chunk_headers :=
                        ainsert bh.chunk_stream_id mh d.previous_chunk_headers }, r5))
                | none =>
                  if d.previous_chunk_headers.length < MAX_PREVIOUS_CHUNK_HEADERS then
                    .ok (some (mh,
                      { d with previous_chunk_headers :=
                          ainsert bh.chunk_stream_id mh d.previous_chunk_headers }, r5))
                  else
                    .error .TooManyPreviousChunkHeaders
              else
                .error (.InvalidMessageTypeID tid)
  else
    match alookup bh.chunk_stream_id d.previous_chunk_headers with
    | none => .error (.MissingPreviousChunkHeader bh.chunk_stream_id)
    | some prev =>
      if bh.format = 1 then
        match readU24BE buf with
        | none => .ok none
        | some (deltaField, r1) =>
          match readU24BE r1 with
          | none => .ok none
          | some (len, r2) =>
            match readU8 r2 with
            | none => .ok none
            | some (tid, r3) =>
              match readTsExt deltaField r3 with
              | none => .ok none
              | some (delta, r4) =>
                if prev.timestamp + delta < 4294967296 then
                  if validMsgTypeID tid then
                    let mh : ChunkMessageHeader :=
                      ⟨prev.timestamp + delta, len, tid, prev.msg_stream_id,
                        deltaField = 16777215⟩
                    .ok (some (mh,
                      { d with previous_chunk_headers :=
                          ainsert bh.chunk_stream_id mh d.previous_chunk_headers }, r4))
                  else
                    .error (.InvalidMessageTypeID tid)
                else
                  .error (.TimestampOverflow prev.timestamp delta)
      else if bh.format = 2 then
        match readU24BE buf with
        | none => .ok none
        | some (deltaField, r1) =>
          match readTsExt deltaField r1 with
          | none => .ok none
          | some (delta, r2) =>
            if prev.timestamp + delta < 4294967296 then
              let mh : ChunkMessageHeader :=
                ⟨prev.timestamp + delta, prev.msg_length, prev.msg_type_id,
                  prev.msg_stream_id, deltaField = 16777215⟩
              .ok (some (mh,
                { d with previous_chunk_headers :=
                    ainsert bh.chunk_stream_id mh d.previous_chunk_headers }, r2))
            else
              .error (.TimestampOverflow prev.timestamp delta)
      else
        if prev.was_extended_timestamp then
          match readU32BE buf with
          | none => .ok none
          | some (_, r1) => .ok (some (prev, d, r1))
        else
          .ok (some (prev, d, buf))

/-- Modelled from the spec (§4.2–§4.3): determine the payload fragment.  The declared
`msg_length` is first checked against `MAX_PARTIAL_PAYLOAD_SIZE` (before any payload
availability check, as `test_decoder_error_partial_chunk_too_large` requires); then
`take = min(chunk_size, msg_length - already_accumulated)` bytes are sliced off, or
`.ok none` is returned if fewer are available. -/
def getPayloadRange (d : ChunkDecoder) (csid : Nat) (mh : ChunkMessageHeader)
    (buf : List Nat) : Except ChunkDecodeError (Option (List Nat × List Nat)) :=
  if MAX_PARTIAL_PAYLOAD_SIZE < mh.msg_length then
    .error (.PartialChunkTooLarge mh.msg_length)
  else
    let partialLen := ((alookup csid d.partial_chunks).getD []).length
    let need := min d.max_chunk_size (mh.msg_length - partialLen)
    if buf.length < need then .ok none
    else .ok (some (buf.take need, buf.drop need))

/-- Modelled from the spec (§4.3–§4.4): append a fragment to the stream's partial
buffer.  If the fragment alone completes the message it is emitted directly; otherwise
it is appended (a new in-flight stream being admitted only while fewer than
`MAX_PARTIAL_CHUNKS` are pending, else `TooManyPartialChunks`), and the chunk is
emitted, with its assembler slot cleared, exactly when the accumulated length reaches
`msg_length`. -/
def processChunk (d : ChunkDecoder) (bh : ChunkBasicHeader) (mh : ChunkMessageHeader)
    (payload : List Nat) : Except ChunkDecodeError (Option Chunk × ChunkDecoder) :=
  if payload.length < mh.msg_length then
    match alookup bh.chunk_stream_id d.partial_chunks with
    | some part =>
      let newPart := part ++ payload
      if newPart.length = mh.msg_length then
        .ok (some ⟨bh, mh, newPart⟩,
          { d with partial_chunks := aremove bh.chunk_stream_id d.partial_chunks })
      else
        .ok (none,
          { d with partial_chunks := ainsert bh.chunk_stream_id newPart d.partial_chunks })
    | none =>
      if d.partial_chunks.length < MAX_PARTIAL_CHUNKS then
        .ok (none,
          { d with partial_chunks := ainsert bh.chunk_stream_id payload d.partial_chunks })
      else
        .error .TooManyPartialChunks
  else
    .ok (some ⟨bh, mh, payload⟩, d)

/-- One iteration of the decode loop: parse one (header, fragment) pair off the front
of the buffer.  `.ok none` means the buffer is too short for a complete pair and
nothing is consumed. -/
def readOne (d : ChunkDecoder) (buf : List Nat) :
    Except ChunkDecodeError (Option (Option Chunk × ChunkDecoder × List Nat)) :=
  match readBasicHeader buf with
  | none => .ok none
  | some (bh, r1) =>
    match readMessageHeader d bh r1 with
    | .error e => .error e
    | .ok none => .ok none
    | .ok (some (mh, d1, r2)) =>
      match getPayloadRange d1 bh.chunk_stream_id mh r2 with
      | .error e => .error e
      | .ok none => .ok none
      | .ok (some (payload, r3)) =>
        match processChunk d1 bh mh payload with
        | .error e => .error e
        | .ok (res, d2) => .ok (some (res, d2, r3))

/-- Fuel-indexed decode loop: keep consuming complete (header, fragment) pairs until a
chunk is emitted, the data runs out, or an error occurs. -/
def readChunkFuel : Nat → ChunkDecoder → List Nat →
    Except ChunkDecodeError (Option Chunk × ChunkDecoder × List Nat)
  | 0, d, buf => .ok (none, d, buf)
  | fuel + 1, d, buf =>
    match readOne d buf with
    | .error e => .error e
    | .ok none => .ok (none, d, buf)
    | .ok (some (some c, d', r)) => .ok (some c, d', r)
    | .ok (some (none, d', r)) => readChunkFuel fuel d' r

/-- Modelled from the spec (§6): `read_chunk` attempts one step, emitting at most one
reassembled message; `(none, d, rest)` is the need-more-bytes signal.  Each loop
iteration consumes at least one byte, so `buf.length + 1` fuel is never exhausted. -/
def read_chunk (d : ChunkDecoder) (buf : List Nat) :
    Except ChunkDecodeError (Option Chunk × ChunkDecoder × List Nat) :=
  readChunkFuel (buf.length + 1) d buf

/-- Encode a 24-bit big-endian integer. -/
def u24BE (n : Nat) : List Nat := [n / 65536 % 256, n / 256 % 256, n % 256]

/-- Encode a 32-bit big-endian integer. -/
def u32BE (n : Nat) : List Nat := [n / 16777216 % 256, n / 65536 % 256, n / 256 % 256, n % 256]

/-- Encode a 32-bit little-endian integer. -/
def u32LE (n : Nat) : List Nat := [n % 256, n / 256 % 256, n / 65536 % 256, n / 16777216 % 256]

/-! ## Test vectors, taken verbatim from `chunk/tests/decoder.rs` -/

/-- Input of `test_decoder_chunk_type0_single_sized`: a type-0 header on stream 3
(timestamp 0, length 128, type 9, stream id bytes 00 01 00 00) and 128 payload bytes. -/
def c1Buf : List Nat :=
  [3, 0x00, 0x00, 0x00, 0x00, 0x00, 0x80, 0x09, 0x00, 0x01, 0x00, 0x00] ++ List.range 128

/-- One (header, fragment) pair of `test_decoder_chunk_type0_double_sized`: a full
type-0 header declaring length 256, followed by 128 payload bytes. -/
def c10Pair : List Nat :=
  [3, 0x00, 0x00, 0x00, 0x00, 0x01, 0x00, 0x09, 0x00, 0x01, 0x00, 0x00] ++ List.range 128

/-- First buffer of `test_decoder_chunk_mutli_streams`: a type-0 header on stream 3
(length 256, type 9) with 128 bytes of value 3, then a type-0 header on stream 4
(length 256, type 8) with 128 bytes of value 4. -/
def c4Start : List Nat :=
  ([3, 0x00, 0x00, 0x00, 0x00, 0x01, 0x00, 0x09, 0x00, 0x01, 0x00, 0x00] ++
    List.replicate 128 3) ++
  ([4, 0x00, 0x00, 0x00, 0x00, 0x01, 0x00, 0x08, 0x00, 0x03, 0x00, 0x00] ++
    List.replicate 128 4)

/-- Format-3 continuation on stream 4 with 128 bytes of value 3. -/
def c4Cont4 : List Nat := 196 :: List.replicate 128 3

/-- Format-3 continuation on stream 3 with 128 bytes of value 3. -/
def c4Cont3 : List Nat := 195 :: List.replicate 128 3

/-- Cached header for stream 3 in the multi-stream test. -/
def c4H3 : ChunkMessageHeader := ⟨0, 256, 9, 0x0100, false⟩

/-- Cached header for stream 4 in the multi-stream test. -/
def c4H4 : ChunkMessageHeader := ⟨0, 256, 8, 0x0300, false⟩

/-- Decoder state after both opening pairs of the multi-stream test. -/
def c4StateA : ChunkDecoder :=
  ⟨128, [(3, c4H3), (4, c4H4)], [(3, List.replicate 128 3), (4, List.replicate 128 4)]⟩

/-- First buffer of `test_decoder_extended_timestamp`: type-0 header on stream 3 with
24-bit field `0xFFFFFF`, length 512, type 9, extended timestamp `0x01000000`, then 128
payload bytes. -/
def c5Buf1 : List Nat :=
  [3, 0xFF, 0xFF, 0xFF, 0x00, 0x02, 0x00, 0x09, 0x00, 0x01, 0x00, 0x00,
    0x01, 0x00, 0x00, 0x00] ++ List.range 128

/-- Remaining bytes of `test_decoder_extended_timestamp`: a type-1 header with delta
field `0xFFFFFF` and extended delta `0x01000000`, a type-2 header with delta 1, and a
format-3 continuation, each followed by 128 payload bytes. -/
def c5Buf2 : List Nat :=
  ([67, 0xFF, 0xFF, 0xFF, 0x00, 0x02, 0x00, 0x09, 0x01, 0x00, 0x00, 0x00] ++
    List.range 128) ++
  ([131, 0x00, 0x00, 0x01] ++ List.range 128) ++
  (195 :: List.range 128)

/-- First buffer of `test_decoder_extended_timestamp_ext`: type-0 header on stream 3
with extended timestamp `0x01000000`, length 256, then 128 payload bytes. -/
def c6Buf1 : List Nat :=
  [3, 0xFF, 0xFF, 0xFF, 0x00, 0x01, 0x00, 0x09, 0x00, 0x01, 0x00, 0x00,
    0x01, 0x00, 0x00, 0x00] ++ List.range 128

/-- Second buffer of `test_decoder_extended_timestamp_ext`: a format-3 continuation,
4 ignored extended-timestamp bytes, then 256 payload bytes. -/
def c6Buf2 : List Nat :=
  195 :: ([0x00, 0x00, 0x00, 0x00] ++ List.range 128 ++ List.range 128)

/-- One (header, fragment) pair of `test_decoder_error_too_many_partial_chunks`: a
type-0 header on the given stream (extended timestamp `0x01000000`, length 256,
type 9) followed by 128 payload bytes. -/
def c8Pair (csid : Nat) : List Nat :=
  csid :: ([0xFF, 0xFF, 0xFF, 0x00, 0x01, 0x00, 0x09, 0x00, 0x01, 0x00, 0x00,
    0x01, 0x00, 0x00, 0x00] ++ List.range 128)

/-- The four opening pairs of `test_decoder_error_too_many_partial_chunks`, on streams
2, 3, 4 and 5. -/
def c8Setup : List Nat := c8Pair 2 ++ c8Pair 3 ++ c8Pair 4 ++ c8Pair 5

/-- The cached header shared by all streams of the too-many-partials test. -/
def c8H : ChunkMessageHeader := ⟨0x01000000, 256, 9, 0x0100, true⟩

/-- Decoder state with four in-flight messages, reached by the too-many-partials
test's setup. -/
def c8StateA : ChunkDecoder :=
  ⟨128, [(2, c8H), (3, c8H), (4, c8H), (5, c8H)],
    [(2, List.range 128), (3, List.range 128), (4, List.range 128), (5, List.range 128)]⟩

/-! ## Claim theorems: concrete scenarios -/

/-- C1: for a fresh decoder (chunk size 128) fed the 12-byte type-0 header
`[0x03, 0,0,0, 0,0,0x80, 0x09, 0,1,0,0]` followed by 128 payload bytes, `read_chunk`
returns a chunk with `chunk_stream_id = 3`, `msg_type_id = 9` (video), `timestamp = 0`,
`msg_length = 128`, `msg_stream_id = 0x0100` (the wire bytes 00 01 00 00 decoded
little-endian), and the payload is exactly the 128 input payload bytes. -/
theorem c1_single_chunk_type0 :
    read_chunk ChunkDecoder.default c1Buf =
      .ok (some ⟨⟨0, 3⟩, ⟨0, 128, 9, 0x0100, false⟩, List.range 128⟩,
        ⟨128, [(3, ⟨0, 128, 9, 0x0100, false⟩)], []⟩, []) := by
  decide

/-- C10: with a 256-byte message sent as two repetitions of the same full type-0
header each followed by 128 payload bytes, the first `read_chunk` returns `none`
(assembly is mid-flight) and the second call appends the fragment to the existing
partial buffer and emits a single chunk with a 256-byte payload. -/
theorem c10_repeated_type0_header_appends :
    read_chunk ChunkDecoder.default c10Pair =
      .ok (none, ⟨128, [(3, ⟨0, 256, 9, 0x0100, false⟩)], [(3, List.range 128)]⟩, []) ∧
    read_chunk ⟨128, [(3, ⟨0, 256, 9, 0x0100, false⟩)], [(3, List.range 128)]⟩ c10Pair =
      .ok (some ⟨⟨0, 3⟩, ⟨0, 256, 9, 0x0100, false⟩, List.range 128 ++ List.range 128⟩,
        ⟨128, [(3, ⟨0, 256, 9, 0x0100, false⟩)], []⟩, []) := by
  constructor
  · decide
  · decide

/-- C4: with a 256-byte message started on stream 3, then a 256-byte message started
on stream 4, then stream 4's continuation fragment, then stream 3's, the stream-4
chunk is emitted first (in final-fragment order) even though stream 3 started first,
and each message is emitted exactly once with its own 256-byte payload. -/
theorem c4_interleaved_streams_completion_order :
    read_chunk ChunkDecoder.default c4Start = .ok (none, c4StateA, []) ∧
    read_chunk c4StateA c4Cont4 =
      .ok (some ⟨⟨3, 4⟩, c4H4, List.replicate 128 4 ++ List.replicate 128 3⟩,
        ⟨128, [(3, c4H3), (4, c4H4)], [(3, List.replicate 128 3)]⟩, []) ∧
    read_chunk ⟨128, [(3, c4H3), (4, c4H4)], [(3, List.replicate 128 3)]⟩ [] =
      .ok (none, ⟨128, [(3, c4H3), (4, c4H4)], [(3, List.replicate 128 3)]⟩, []) ∧
    read_chunk ⟨128, [(3, c4H3), (4, c4H4)], [(3, List.replicate 128 3)]⟩ c4Cont3 =
      .ok (some ⟨⟨3, 3⟩, c4H3, List.replicate 128 3 ++ List.replicate 128 3⟩,
        ⟨128, [(3, c4H3), (4, c4H4)], []⟩, []) := by
  refine ⟨by decide, by decide, by decide, by decide⟩

/-- C5: a 24-bit timestamp/delta field of `0xFFFFFF` is followed by a 4-byte
big-endian extended value; starting from a type-0 header with extended timestamp
`0x01000000`, one type-1 delta of `0x01000000` and one type-2 delta of `0x01` yield an
emitted chunk whose timestamp is `0x01000000 + 0x01000000 + 0x01 = 0x02000001`:
deltas accumulate onto the cached timestamp by checked 32-bit addition. -/
theorem c5_extended_timestamp_delta_accumulation :
    read_chunk ChunkDecoder.default c5Buf1 =
      .ok (none, ⟨128, [(3, ⟨0x01000000, 512, 9, 0x0100, true⟩)], [(3, List.range 128)]⟩,
        []) ∧
    read_chunk ⟨128, [(3, ⟨0x01000000, 512, 9, 0x0100, true⟩)], [(3, List.range 128)]⟩
        c5Buf2 =
      .ok (some ⟨⟨3, 3⟩, ⟨0x02000001, 512, 9, 0x0100, false⟩,
          List.range 128 ++ List.range 128 ++ List.range 128 ++ List.range 128⟩,
        ⟨128, [(3, ⟨0x02000001, 512, 9, 0x0100, false⟩)], []⟩, []) := by
  constructor
  · decide
  · decide

/-- C6: for a format-3 chunk on a stream whose prior header used the extended
timestamp form, 4 extra bytes are read after the basic header and their value is
discarded, the cached timestamp being used verbatim: after a type-0 header with
extended timestamp `0x01000000`, a format-3 continuation followed by 4 ignored zero
bytes still yields a chunk with timestamp `0x01000000` (and the 128 surplus input
bytes are left in the buffer). -/
theorem c6_format3_extended_timestamp_discard :
    read_chunk ChunkDecoder.default c6Buf1 =
      .ok (none, ⟨128, [(3, ⟨0x01000000, 256, 9, 0x0100, true⟩)], [(3, List.range 128)]⟩,
        []) ∧
    read_chunk ⟨128, [(3, ⟨0x01000000, 256, 9, 0x0100, true⟩)], [(3, List.range 128)]⟩
        c6Buf2 =
      .ok (some ⟨⟨3, 3⟩, ⟨0x01000000, 256, 9, 0x0100, true⟩,
          List.range 128 ++ List.range 128⟩,
        ⟨128, [(3, ⟨0x01000000, 256, 9, 0x0100, true⟩)], []⟩, List.range 128) := by
  constructor
  · decide
  · decide

/-- C8: with `MAX_PARTIAL_CHUNKS = 4`, after messages on the four distinct streams
2, 3, 4, 5 are mid-assembly, starting a fifth in-flight message on new stream 12 fails
with `TooManyPartialChunks`, while a continuation for the existing in-flight stream 2
still passes freely (the limit is evaluated only when a new stream id would be added
to the partial-chunk map). -/
theorem c8_too_many_partial_chunks :
    read_chunk ChunkDecoder.default c8Setup = .ok (none, c8StateA, []) ∧
    read_chunk c8StateA (c8Pair 12) = .error .TooManyPartialChunks ∧
    read_chunk c8StateA (194 :: ([0x00, 0x00, 0x00, 0x00] ++ List.range 128)) =
      .ok (some ⟨⟨3, 2⟩, c8H, List.range 128 ++ List.range 128⟩,
        ⟨128, [(2, c8H), (3, c8H), (4, c8H), (5, c8H)],
          [(3, List.range 128), (4, List.range 128), (5, List.range 128)]⟩, []) := by
  refine ⟨by decide, by decide, by decide⟩

/-! ## Field encode/decode round trips -/

theorem readU24BE_u24BE (n : Nat) (x : List Nat) (h : n < 16777216) :
    readU24BE (u24BE n ++ x) = some (n, x) := by
  simp [readU24BE, u24BE]
  omega

theorem readU32BE_u32BE (n : Nat) (x : List Nat) (h : n < 4294967296) :
    readU32BE (u32BE n ++ x) = some (n, x) := by
  simp [readU32BE, u32BE]
  omega

theorem readU32LE_u32LE (n : Nat) (x : List Nat) (h : n < 4294967296) :
    readU32LE (u32LE n ++ x) = some (n, x) := by
  simp [readU32LE, u32LE]
  omega

theorem readTsExt_plain (t : Nat) (x : List Nat) (h : t < 16777215) :
    readTsExt t x = some (t, x) := by
  unfold readTsExt
  rw [if_neg (by omega)]

/-! ## Claim theorems: error paths stated symbolically -/

/-- C7: a chunk whose basic header selects format 1, 2 or 3 (`1 ≤ b0 >> 6`) on an
inline chunk stream id (`2 ≤ b0 & 0x3F`) with no entry in the per-stream header cache
makes `read_chunk` fail with `MissingPreviousChunkHeader` carrying that stream id. -/
theorem c7_missing_previous_chunk_header (d : ChunkDecoder) (b0 : Nat) (rest : List Nat)
    (hfmt : 1 ≤ b0 / 64) (hcs : 2 ≤ b0 % 64)
    (hnone : alookup (b0 % 64) d.previous_chunk_headers = none) :
    read_chunk d (b0 :: rest) = .error (.MissingPreviousChunkHeader (b0 % 64)) := by
  have h0 : ¬ b0 % 64 = 0 := by omega
  have h1 : ¬ b0 % 64 = 1 := by omega
  have hf : ¬ b0 / 64 = 0 := by omega
  simp [read_chunk, readChunkFuel, readOne, readBasicHeader, readMessageHeader,
    h0, h1, hf, hnone]

/-- C7 witness: the single byte `0xC3` fed to a fresh decoder yields
`Err(MissingPreviousChunkHeader(3))`. -/
theorem c7_missing_previous_chunk_header_witness :
    read_chunk ChunkDecoder.default [0xC3] = .error (.MissingPreviousChunkHeader 3) :=
  c7_missing_previous_chunk_header ChunkDecoder.default 0xC3 []
    (by decide) (by decide) rfl

/-- C9: a declared `msg_length` exceeding `MAX_PARTIAL_PAYLOAD_SIZE` in a type-0
header makes `read_chunk` fail with `PartialChunkTooLarge` carrying the declared
length, before any payload byte is even required (`extra` may be empty): the length
bound is checked before allocating or growing a partial buffer. -/
theorem c9_partial_chunk_too_large (d : ChunkDecoder) (csid ts len tid sid : Nat)
    (extra : List Nat) (hcs1 : 2 ≤ csid) (hcs2 : csid ≤ 63) (hts : ts < 16777215)
    (hlen : MAX_PARTIAL_PAYLOAD_SIZE < len) (hlen2 : len < 16777216)
    (htid : validMsgTypeID tid = true) (hsid : sid < 4294967296)
    (hroom : d.previous_chunk_headers.length < MAX_PREVIOUS_CHUNK_HEADERS) :
    read_chunk d (csid :: (u24BE ts ++ (u24BE len ++ (tid :: (u32LE sid ++ extra))))) =
      .error (.PartialChunkTooLarge len) := by
  have h0 : ¬ csid % 64 = 0 := by omega
  have h1 : ¬ csid % 64 = 1 := by omega
  have h0' : ¬ csid = 0 := by omega
  have h1' : ¬ csid = 1 := by omega
  have hmod : csid % 64 = csid := Nat.mod_eq_of_lt (by omega)
  have hdiv : csid / 64 = 0 := Nat.div_eq_of_lt (by omega)
  have e1 := readU24BE_u24BE ts (u24BE len ++ (tid :: (u32LE sid ++ extra))) (by omega)
  have e2 := readU24BE_u24BE len (tid :: (u32LE sid ++ extra)) (by omega)
  have e4 := readU32LE_u32LE sid extra hsid
  have e5 := readTsExt_plain ts extra hts
  rcases hca : alookup csid d.previous_chunk_headers with _ | prev
  · simp [read_chunk, readChunkFuel, readOne, readBasicHeader, readMessageHeader,
      getPayloadRange, h0, h1, h0', h1', hmod, hdiv, e1, e2, e4, e5, htid, hca, hroom,
      readU8, hlen]
  · simp [read_chunk, readChunkFuel, readOne, readBasicHeader, readMessageHeader,
      getPayloadRange, h0, h1, h0', h1', hmod, hdiv, e1, e2, e4, e5, htid, hca,
      readU8, hlen]

/-- C9 witness: a type-0 header on stream 3 declaring `msg_length = 0xFFFFFF` yields
`Err(PartialChunkTooLarge(16777215))` even with no payload bytes at all. -/
theorem c9_partial_chunk_too_large_witness :
    read_chunk ChunkDecoder.default
      (3 :: (u24BE 0 ++ (u24BE 0xFFFFFF ++ (9 :: (u32LE 0x0100 ++ []))))) =
      .error (.PartialChunkTooLarge 0xFFFFFF) :=
  c9_partial_chunk_too_large ChunkDecoder.default 3 0 0xFFFFFF 9 0x0100 []
    (by decide) (by decide) (by decide) (by decide) (by decide) (by decide)
    (by decide) (by decide)

/-! ## Consumption accounting -/

theorem readU8_length {l r : List Nat} {v : Nat} (h : readU8 l = some (v, r)) :
    l.length = r.length + 1 := by
  cases l with
  | nil => simp [readU8] at h
  | cons b t =>
    simp [readU8] at h
    obtain ⟨-, h2⟩ := h
    subst h2
    simp

theorem readU24BE_length {l r : List Nat} {v : Nat} (h : readU24BE l = some (v, r)) :
    l.length = r.length + 3 := by
  rcases l with _ | ⟨b0, _ | ⟨b1, _ | ⟨b2, t⟩⟩⟩ <;> simp [readU24BE] at h
  obtain ⟨-, h2⟩ := h
  subst h2
  simp

theorem readU32BE_length {l r : List Nat} {v : Nat} (h : readU32BE l = some (v, r)) :
    l.length = r.length + 4 := by
  rcases l with _ | ⟨b0, _ | ⟨b1, _ | ⟨b2, _ | ⟨b3, t⟩⟩⟩⟩ <;> simp [readU32BE] at h
  obtain ⟨-, h2⟩ := h
  subst h2
  simp

theorem readU32LE_length {l r : List Nat} {v : Nat} (h : readU32LE l = some (v, r)) :
    l.length = r.length + 4 := by
  rcases l with _ | ⟨b0, _ | ⟨b1, _ | ⟨b2, _ | ⟨b3, t⟩⟩⟩⟩ <;> simp [readU32LE] at h
  obtain ⟨-, h2⟩ := h
  subst h2
  simp

theorem readTsExt_length {t : Nat} {l r : List Nat} {v : Nat}
    (h : readTsExt t l = some (v, r)) : r.length ≤ l.length := by
  unfold readTsExt at h
  split at h
  · have := readU32BE_length h
    omega
  · simp at h
    obtain ⟨-, h2⟩ := h
    subst h2
    exact Nat.le_refl _

theorem readBasicHeader_length {l r : List Nat} {bh : ChunkBasicHeader}
    (h : readBasicHeader l = some (bh, r)) : r.length < l.length := by
  rcases l with _ | ⟨b0, t⟩
  · simp [readBasicHeader] at h
  · simp only [readBasicHeader] at h
    split at h
    · rcases t with _ | ⟨b1, t2⟩ <;> simp at h
      obtain ⟨-, h2⟩ := h
      subst h2
      simp
      omega
    · split at h
      · rcases t with _ | ⟨b1, _ | ⟨b2, t2⟩⟩ <;> simp at h
        obtain ⟨-, h2⟩ := h
        subst h2
        simp
        omega
      · simp at h
        obtain ⟨-, h2⟩ := h
        subst h2
        simp

theorem readMessageHeader_length {d : ChunkDecoder} {bh : ChunkBasicHeader}
    {buf : List Nat} {mh : ChunkMessageHeader} {d1 : ChunkDecoder} {r : List Nat}
    (h : readMessageHeader d bh buf = .ok (some (mh, d1, r))) :
    r.length ≤ buf.length := by
  unfold readMessageHeader at h
  by_cases hf0 : bh.format = 0
  · rw [if_pos hf0] at h
    cases e1 : readU24BE buf with
    | none => rw [e1] at h; exact absurd h (by simp)
    | some p1 =>
      rw [e1] at h
      obtain ⟨tsField, r1⟩ := p1
      dsimp only [] at h
      cases e2 : readU24BE r1 with
      | none => rw [e2] at h; exact absurd h (by simp)
      | some p2 =>
        rw [e2] at h
        obtain ⟨len, r2⟩ := p2
        dsimp only [] at h
        cases e3 : readU8 r2 with
        | none => rw [e3] at h; exact absurd h (by simp)
        | some p3 =>
          rw [e3] at h
          obtain ⟨tid, r3⟩ := p3
          dsimp only [] at h
          cases e4 : readU32LE r3 with
          | none => rw [e4] at h; exact absurd h (by simp)
          | some p4 =>
            rw [e4] at h
            obtain ⟨sid, r4⟩ := p4
            dsimp only [] at h
            cases e5 : readTsExt tsField r4 with
            | none => rw [e5] at h; exact absurd h (by simp)
            | some p5 =>
              rw [e5] at h
              obtain ⟨ts, r5⟩ := p5
              dsimp only [] at h
              have l1 := readU24BE_length e1
              have l2 := readU24BE_length e2
              have l3 := readU8_length e3
              have l4 := readU32LE_length e4
              have l5 := readTsExt_length e5
              have hr : r = r5 := by
                split at h
                · cases e6 : alookup bh.chunk_stream_id d.previous_chunk_headers with
                  | none =>
                    rw [e6] at h
                    dsimp only [] at h
                    split at h
                    · simp at h
                      exact h.2.2.symm
                    · exact Except.noConfusion h
                  | some prev =>
                    rw [e6] at h
                    dsimp only [] at h
                    simp at h
                    exact h.2.2.symm
                · exact absurd h (by simp)
              subst hr
              omega
  · rw [if_neg hf0] at h
    cases e0 : alookup bh.chunk_stream_id d.previous_chunk_headers with
    | none => rw [e0] at h; exact absurd h (by simp)
    | some prev =>
      rw [e0] at h
      dsimp only [] at h
      by_cases hf1 : bh.format = 1
      · rw [if_pos hf1] at h
        cases e1 : readU24BE buf with
        | none => rw [e1] at h; exact absurd h (by simp)
        | some p1 =>
          rw [e1] at h
          obtain ⟨deltaField, r1⟩ := p1
          dsimp only [] at h
          cases e2 : readU24BE r1 with
          | none => rw [e2] at h; exact absurd h (by simp)
          | some p2 =>
            rw [e2] at h
            obtain ⟨len, r2⟩ := p2
            dsimp only [] at h
            cases e3 : readU8 r2 with
            | none => rw [e3] at h; exact absurd h (by simp)
            | some p3 =>
              rw [e3] at h
              obtain ⟨tid, r3⟩ := p3
              dsimp only [] at h
              cases e4 : readTsExt deltaField r3 with
              | none => rw [e4] at h; exact absurd h (by simp)
              | some p4 =>
                rw [e4] at h
                obtain ⟨delta, r4⟩ := p4
                dsimp only [] at h
                have l1 := readU24BE_length e1
                have l2 := readU24BE_length e2
                have l3 := readU8_length e3
                have l4 := readTsExt_length e4
                have hr : r = r4 := by
                  split at h
                  · split at h
                    · simp at h
                      exact h.2.2.symm
                    · exact absurd h (by simp)
                  · exact absurd h (by simp)
                subst hr
                omega
      · by_cases hf2 : bh.format = 2
        · rw [if_neg hf1, if_pos hf2] at h
          cases e1 : readU24BE buf with
          | none => rw [e1] at h; exact absurd h (by simp)
          | some p1 =>
            rw [e1] at h
            obtain ⟨deltaField, r1⟩ := p1
            dsimp only [] at h
            cases e2 : readTsExt deltaField r1 with
            | none => rw [e2] at h; exact absurd h (by simp)
            | some p2 =>
              rw [e2] at h
              obtain ⟨delta, r2⟩ := p2
              dsimp only [] at h
              have l1 := readU24BE_length e1
              have l2 := readTsExt_length e2
              have hr : r = r2 := by
                split at h
                · simp at h
                  exact h.2.2.symm
                · exact absurd h (by simp)
              subst hr
              omega
        · rw [if_neg hf1, if_neg hf2] at h
          split at h
          · cases e1 : readU32BE buf with
            | none => rw [e1] at h; exact absurd h (by simp)
            | some p1 =>
              rw [e1] at h
              obtain ⟨w, r1⟩ := p1
              dsimp only [] at h
              have l1 := readU32BE_length e1
              have hr : r = r1 := by
                simp at h
                exact h.2.2.symm
              subst hr
              omega
          · simp at h
            have hr : r = buf := h.2.2.symm
            subst hr
            exact Nat.le_refl _

theorem getPayloadRange_length {d : ChunkDecoder} {csid : Nat}
    {mh : ChunkMessageHeader} {buf payload r : List Nat}
    (h : getPayloadRange d csid mh buf = .ok (some (payload, r))) :
    r.length ≤ buf.length := by
  unfold getPayloadRange at h
  split at h
  · exact Except.noConfusion h
  · dsimp only [] at h
    split at h
    · exact absurd h (by simp)
    · simp at h
      obtain ⟨-, h2⟩ := h
      subst h2
      simp

/-- Each successful loop iteration consumes at least one byte (the basic header). -/
theorem readOne_progress {d : ChunkDecoder} {buf : List Nat} {res : Option Chunk}
    {d2 : ChunkDecoder} {r3 : List Nat}
    (h : readOne d buf = .ok (some (res, d2, r3))) : r3.length < buf.length := by
  unfold readOne at h
  cases e1 : readBasicHeader buf with
  | none => rw [e1] at h; exact absurd h (by simp)
  | some p =>
    rw [e1] at h
    obtain ⟨bh, r1⟩ := p
    dsimp only [] at h
    cases e2 : readMessageHeader d bh r1 with
    | error e => rw [e2] at h; exact absurd h (by simp)
    | ok o =>
      rw [e2] at h
      cases o with
      | none => exact absurd h (by simp)
      | some p2 =>
        obtain ⟨mh, d1, r2⟩ := p2
        dsimp only [] at h
        cases e3 : getPayloadRange d1 bh.chunk_stream_id mh r2 with
        | error e => rw [e3] at h; exact absurd h (by simp)
        | ok o2 =>
          rw [e3] at h
          cases o2 with
          | none => exact absurd h (by simp)
          | some p3 =>
            obtain ⟨payload, rr⟩ := p3
            dsimp only [] at h
            cases e4 : processChunk d1 bh mh payload with
            | error e => rw [e4] at h; exact absurd h (by simp)
            | ok p4 =>
              rw [e4] at h
              obtain ⟨res', d2'⟩ := p4
              dsimp only [] at h
              simp at h
              obtain ⟨-, -, hr⟩ := h
              subst hr
              have hb := readBasicHeader_length e1
              have hm := readMessageHeader_length e2
              have hp := getPayloadRange_length e3
              omega

/-- Reachability by consuming whole (header, fragment) pairs, none of which completed
a message: the reflexive-transitive closure of non-emitting `readOne` steps. -/
inductive PairSteps : ChunkDecoder → List Nat → ChunkDecoder → List Nat → Prop where
  | refl (d : ChunkDecoder) (b : List Nat) : PairSteps d b d b
  | step {d : ChunkDecoder} {b : List Nat} {d1 : ChunkDecoder} {b1 : List Nat}
      {d2 : ChunkDecoder} {b2 : List Nat}
      (h : readOne d b = .ok (some (none, d1, b1))) (tail : PairSteps d1 b1 d2 b2) :
      PairSteps d b d2 b2

theorem readChunkFuel_pairs : ∀ (fuel : Nat) (d : ChunkDecoder) (buf : List Nat)
    (res : Option Chunk) (d' : ChunkDecoder) (rest : List Nat),
    buf.length < fuel →
    readChunkFuel fuel d buf = .ok (res, d', rest) →
    ∃ dk bk, PairSteps d buf dk bk ∧
      ((res = none ∧ d' = dk ∧ rest = bk ∧ readOne dk bk = .ok none) ∨
       (∃ c, res = some c ∧ readOne dk bk = .ok (some (some c, d', rest)))) := by
  intro fuel
  induction fuel with
  | zero =>
    intro d buf res d' rest hlen _
    omega
  | succ n ih =>
    intro d buf res d' rest hlen h
    rw [readChunkFuel] at h
    cases e : readOne d buf with
    | error e' => rw [e] at h; exact absurd h (by simp)
    | ok o =>
      rw [e] at h
      cases o with
      | none =>
        simp at h
        obtain ⟨h1, h2, h3⟩ := h
        subst h1 h2 h3
        exact ⟨d, buf, PairSteps.refl d buf, .inl ⟨rfl, rfl, rfl, e⟩⟩
      | some p =>
        obtain ⟨oc, d1, b1⟩ := p
        cases oc with
        | some c =>
          simp at h
          obtain ⟨h1, h2, h3⟩ := h
          subst h1 h2 h3
          exact ⟨d, buf, PairSteps.refl d buf, .inr ⟨c, rfl, e⟩⟩
        | none =>
          have hp := readOne_progress e
          obtain ⟨dk, bk, hsteps, hend⟩ := ih d1 b1 res d' rest (by omega) h
          exact ⟨dk, bk, PairSteps.step e hsteps, hend⟩

/-- C2 (amended): when the buffer is shorter than one complete (header, fragment)
pair, `read_chunk` returns `Ok(None)` with the buffer and the decoder state untouched;
and every call consumes a whole number — zero or more — of complete (header, fragment)
pairs, never a partial header or a partial fragment: the consumed prefix decomposes
into non-emitting pair steps, followed either by a final pair that emits the returned
chunk, or by a remainder too short for a further pair, which is left untouched. -/
theorem c2_pair_boundary_consumption (d : ChunkDecoder) (buf : List Nat) :
    (readOne d buf = .ok none → read_chunk d buf = .ok (none, d, buf)) ∧
    (∀ res d' rest, read_chunk d buf = .ok (res, d', rest) →
      ∃ dk bk, PairSteps d buf dk bk ∧
        ((res = none ∧ d' = dk ∧ rest = bk ∧ readOne dk bk = .ok none) ∨
         (∃ c, res = some c ∧ readOne dk bk = .ok (some (some c, d', rest))))) := by
  constructor
  · intro h
    unfold read_chunk
    rw [readChunkFuel, h]
  · intro res d' rest h
    exact readChunkFuel_pairs (buf.length + 1) d buf res d' rest (by omega) h

/-- The chunk emitted on the C1 input, and the decoder state afterwards. -/
def c1Chunk : Chunk := ⟨⟨0, 3⟩, ⟨0, 128, 9, 0x0100, false⟩, List.range 128⟩

/-- Decoder state after decoding the C1 input. -/
def c1State : ChunkDecoder := ⟨128, [(3, ⟨0, 128, 9, 0x0100, false⟩)], []⟩

/-- C2 witness: the first conjunct applied to a fresh decoder and the 1-byte prefix
`[3]` of a type-0 header (too short for a pair: buffer untouched), and the second
conjunct applied to the single-chunk input of C1. -/
theorem c2_pair_boundary_consumption_witness :
    read_chunk ChunkDecoder.default [3] = .ok (none, ChunkDecoder.default, [3]) ∧
    ∃ dk bk, PairSteps ChunkDecoder.default c1Buf dk bk ∧
      ((some c1Chunk = none ∧ c1State = dk ∧ ([] : List Nat) = bk ∧
          readOne dk bk = .ok none) ∨
       (∃ c, some c1Chunk = some c ∧
          readOne dk bk = .ok (some (some c, c1State, [])))) := by
  constructor
  · exact (c2_pair_boundary_consumption ChunkDecoder.default [3]).1 (by decide)
  · exact (c2_pair_boundary_consumption ChunkDecoder.default c1Buf).2
      (some c1Chunk) c1State [] (by decide)

/-! ## A conforming encoder, and the encode/decode round trip (C3) -/

/-- A logical RTMP message on the encoder side. -/
structure Message where
  chunk_stream_id : Nat
  timestamp : Nat
  msg_type_id : Nat
  msg_stream_id : Nat
  payload : List Nat
  deriving Repr, DecidableEq

/-- Fuel-indexed encoder for the format-3 continuation chunks of a message: each
carries a format-3 basic header byte (`0xC0 | csid`) followed by the next
`chunk_size` payload bytes (spec §6, item 4). -/
def encodeRestFuel : Nat → Nat → Nat → List Nat → List Nat
  | 0, _, _, _ => []
  | _ + 1, _, _, [] => []
  | fuel + 1, csid, cs, b :: rest =>
    (192 + csid) :: ((b :: rest).take cs ++ encodeRestFuel fuel csid cs ((b :: rest).drop cs))

/-- The format-3 continuation chunks for the given remaining payload. -/
def encodeRest (csid cs : Nat) (l : List Nat) : List Nat :=
  encodeRestFuel l.length csid cs l

/-- Modelled from the spec (§6 wire format): a conforming encoder's byte sequence for
one message — a type-0 basic header with inline chunk stream id, the full 11-byte
message header (24-bit big-endian timestamp and length, type-id byte, 32-bit
little-endian message stream id), the first `chunk_size` payload bytes, then format-3
continuations of `chunk_size` bytes each.  (The repository's `ChunkEncoder` is not in
the source snapshot; this follows the spec's bit-exact wire format.) -/
def encodeMessage (cs : Nat) (m : Message) : List Nat :=
  m.chunk_stream_id ::
    (u24BE m.timestamp ++ (u24BE m.payload.length ++ (m.msg_type_id ::
      (u32LE m.msg_stream_id ++
        (m.payload.take cs ++ encodeRest m.chunk_stream_id cs (m.payload.drop cs))))))

/-- Back-to-back encoding of a sequence of messages. -/
def encodeMessages (cs : Nat) (ms : List Message) : List Nat :=
  (ms.map (encodeMessage cs)).flatten

/-- The fully materialized message header a conforming encoding of `m` decodes to. -/
def mhOf (m : Message) : ChunkMessageHeader :=
  ⟨m.timestamp, m.payload.length, m.msg_type_id, m.msg_stream_id, false⟩

/-- The chunk the decoder emits for a conforming encoding of `m`: the basic header is
the one of the final fragment (format 0 if the message fits one chunk, else 3). -/
def chunkOf (cs : Nat) (m : Message) : Chunk :=
  if m.payload.length ≤ cs then ⟨⟨0, m.chunk_stream_id⟩, mhOf m, m.payload⟩
  else ⟨⟨3, m.chunk_stream_id⟩, mhOf m, m.payload⟩

/-- The observable content of an emitted chunk, as in the round-trip property. -/
def chunkTuple (c : Chunk) : Nat × Nat × Nat × List Nat :=
  (c.message_header.msg_type_id, c.message_header.msg_stream_id,
    c.message_header.timestamp, c.payload)

/-- The observable content of a message. -/
def msgTuple (m : Message) : Nat × Nat × Nat × List Nat :=
  (m.msg_type_id, m.msg_stream_id, m.timestamp, m.payload)

/-- A message a conforming encoder may emit with a plain (non-extended) timestamp:
inline chunk stream id, in-range fields, recognized type, bounded length. -/
abbrev WellFormed (m : Message) : Prop :=
  2 ≤ m.chunk_stream_id ∧ m.chunk_stream_id ≤ 63 ∧ m.timestamp < 16777215 ∧
  validMsgTypeID m.msg_type_id = true ∧ m.msg_stream_id < 4294967296 ∧
  m.payload.length ≤ MAX_PARTIAL_PAYLOAD_SIZE

/-- Repeatedly call `read_chunk`, collecting emitted chunks, until it reports that it
needs more bytes (or the call budget runs out). -/
def decodeAll : Nat → ChunkDecoder → List Nat → Except ChunkDecodeError (List Chunk)
  | 0, _, _ => .ok []
  | fuel + 1, d, buf =>
    match read_chunk d buf with
    | .error e => .error e
    | .ok (none, _, _) => .ok []
    | .ok (some c, d', rest) => (decodeAll fuel d' rest).map (c :: ·)

/-- Modelled from the spec: `NetStreamWriter::write_on_status` sends a single AMF0
command message through the chunk encoder on chunk stream id 3, with message type id
`0x14` (amf0-command), message stream id 0 and timestamp 0; its payload is the AMF0
encoding of the onStatus command, kept abstract here as a byte list (AMF0 itself is
out of the spec's scope). -/
def onStatusMessage (payload : List Nat) : Message := ⟨3, 0, 0x14, 0, payload⟩

/-- Modelled from the spec: the bytes `write_on_status` hands to the transport. -/
def write_on_status (cs : Nat) (payload : List Nat) : List Nat :=
  encodeMessage cs (onStatusMessage payload)

theorem alookup_ainsert {α : Type} (k : Nat) (v : α) (l : List (Nat × α)) :
    alookup k (ainsert k v l) = some v := by
  induction l with
  | nil => simp [alookup, ainsert]
  | cons p t ih =>
    obtain ⟨k', v'⟩ := p
    by_cases hk : k' = k
    · simp [alookup, ainsert, hk]
    · simp [alookup, ainsert, hk, ih]

theorem encodeRestFuel_congr (csid cs : Nat) (hcs : 1 ≤ cs) :
    ∀ f1 f2 l, l.length ≤ f1 → l.length ≤ f2 →
      encodeRestFuel f1 csid cs l = encodeRestFuel f2 csid cs l := by
  intro f1
  induction f1 with
  | zero =>
    intro f2 l h1 _
    have : l = [] := List.length_eq_zero.mp (by omega)
    subst this
    cases f2 <;> rfl
  | succ n ih =>
    intro f2 l h1 h2
    cases l with
    | nil => cases f2 <;> rfl
    | cons b t =>
      cases f2 with
      | zero => simp at h2
      | succ f2' =>
        rw [encodeRestFuel, encodeRestFuel]
        simp only [List.length_cons] at h1 h2
        have hd : ((b :: t).drop cs).length ≤ n := by
          simp only [List.length_drop, List.length_cons]
          omega
        have hd2 : ((b :: t).drop cs).length ≤ f2' := by
          simp only [List.length_drop, List.length_cons]
          omega
        rw [ih f2' ((b :: t).drop cs) hd hd2]

theorem encodeRest_cons (csid cs : Nat) (hcs : 1 ≤ cs) (b : Nat) (t : List Nat) :
    encodeRest csid cs (b :: t) =
      (192 + csid) :: ((b :: t).take cs ++ encodeRest csid cs ((b :: t).drop cs)) := by
  unfold encodeRest
  rw [show (b :: t).length = t.length + 1 from rfl, encodeRestFuel]
  rw [encodeRestFuel_congr csid cs hcs t.length ((b :: t).drop cs).length ((b :: t).drop cs)
    (by simp only [List.length_drop, List.length_cons]; omega) (Nat.le_refl _)]

theorem encodeRest_length (csid cs : Nat) (hcs : 1 ≤ cs) :
    ∀ n l, l.length ≤ n → l.length ≤ (encodeRest csid cs l).length := by
  intro n
  induction n with
  | zero =>
    intro l h
    have : l = [] := List.length_eq_zero.mp (by omega)
    subst this
    simp
  | succ n ih =>
    intro l h
    cases l with
    | nil => simp
    | cons b t =>
      rw [encodeRest_cons csid cs hcs]
      simp only [List.length_cons] at h
      have := ih ((b :: t).drop cs)
        (by simp only [List.length_drop, List.length_cons]; omega)
      simp only [List.length_cons, List.length_append, List.length_take,
        List.length_drop] at *
      omega

theorem encodeMessage_length (cs : Nat) (m : Message) (hcs : 1 ≤ cs) :
    m.payload.length ≤ (encodeMessage cs m).length := by
  have := encodeRest_length m.chunk_stream_id cs hcs (m.payload.drop cs).length
    (m.payload.drop cs) (Nat.le_refl _)
  simp only [encodeMessage, u24BE, u32LE, List.length_cons, List.length_append,
    List.length_take, List.length_drop] at *
  omega

theorem readBasicHeader_fmt3 (csid : Nat) (h2 : 2 ≤ csid) (h63 : csid ≤ 63)
    (r : List Nat) : readBasicHeader ((192 + csid) :: r) = some (⟨3, csid⟩, r) := by
  have hmod : (192 + csid) % 64 = csid := by omega
  have hdiv : (192 + csid) / 64 = 3 := by omega
  simp only [readBasicHeader, hmod, hdiv]
  rw [if_neg (by omega : ¬ csid = 0), if_neg (by omega : ¬ csid = 1)]

theorem readBasicHeader_fmt0 (csid : Nat) (h2 : 2 ≤ csid) (h63 : csid ≤ 63)
    (r : List Nat) : readBasicHeader (csid :: r) = some (⟨0, csid⟩, r) := by
  have hmod : csid % 64 = csid := Nat.mod_eq_of_lt (by omega)
  have hdiv : csid / 64 = 0 := Nat.div_eq_of_lt (by omega)
  simp only [readBasicHeader, hmod, hdiv]
  rw [if_neg (by omega : ¬ csid = 0), if_neg (by omega : ¬ csid = 1)]

theorem readMessageHeader_fmt3_plain (d : ChunkDecoder) (csid : Nat)
    (prev : ChunkMessageHeader) (buf : List Nat)
    (hca : alookup csid d.previous_chunk_headers = some prev)
    (hext : prev.was_extended_timestamp = false) :
    readMessageHeader d ⟨3, csid⟩ buf = .ok (some (prev, d, buf)) := by
  simp [readMessageHeader, hca, hext]

theorem readMessageHeader_fmt0_eval (cs : Nat) (cache : List (Nat × ChunkMessageHeader))
    (pc : List (Nat × List Nat)) (csid ts len tid sid : Nat) (rest : List Nat)
    (hts : ts < 16777215) (hlen : len < 16777216) (htid : validMsgTypeID tid = true)
    (hsid : sid < 4294967296) (hroom : cache.length < MAX_PREVIOUS_CHUNK_HEADERS) :
    readMessageHeader ⟨cs, cache, pc⟩ ⟨0, csid⟩
        (u24BE ts ++ (u24BE len ++ (tid :: (u32LE sid ++ rest)))) =
      .ok (some (⟨ts, len, tid, sid, false⟩,
        ⟨cs, ainsert csid ⟨ts, len, tid, sid, false⟩ cache, pc⟩, rest)) := by
  have e1 := readU24BE_u24BE ts (u24BE len ++ (tid :: (u32LE sid ++ rest))) (by omega)
  have e2 := readU24BE_u24BE len (tid :: (u32LE sid ++ rest)) hlen
  have e4 := readU32LE_u32LE sid rest hsid
  have e5 := readTsExt_plain ts rest hts
  have hd : decide (ts = 16777215) = false := decide_eq_false (by omega)
  cases e6 : alookup csid cache with
  | some prev => simp only [readMessageHeader, e1, e2, readU8, e4, e5, htid, e6, hd,
      if_true, if_pos]
  | none => simp only [readMessageHeader, e1, e2, readU8, e4, e5, htid, e6, hd, hroom,
      if_true, if_pos]

theorem getPayloadRange_eval (cs csid : Nat) (cache : List (Nat × ChunkMessageHeader))
    (acc : List Nat) (mh : ChunkMessageHeader) (l z : List Nat)
    (hml : ¬ MAX_PARTIAL_PAYLOAD_SIZE < mh.msg_length)
    (hl : l.length = min cs (mh.msg_length - acc.length)) :
    getPayloadRange ⟨cs, cache, [(csid, acc)]⟩ csid mh (l ++ z) = .ok (some (l, z)) := by
  simp only [getPayloadRange, hml, if_false, alookup, eq_self_iff_true, if_true,
    Option.getD_some]
  rw [← hl]
  rw [if_neg (by simp only [List.length_append]; omega : ¬ (l ++ z).length < l.length)]
  rw [List.take_left, List.drop_left]

theorem getPayloadRange_eval_empty (cs csid : Nat)
    (cache : List (Nat × ChunkMessageHeader)) (mh : ChunkMessageHeader) (l z : List Nat)
    (hml : ¬ MAX_PARTIAL_PAYLOAD_SIZE < mh.msg_length)
    (hl : l.length = min cs mh.msg_length) :
    getPayloadRange ⟨cs, cache, []⟩ csid mh (l ++ z) = .ok (some (l, z)) := by
  simp only [getPayloadRange, hml, if_false, alookup, Option.getD_none,
    List.length_nil, Nat.sub_zero]
  rw [← hl]
  rw [if_neg (by simp only [List.length_append]; omega : ¬ (l ++ z).length < l.length)]
  rw [List.take_left, List.drop_left]

theorem processChunk_emit_direct (d : ChunkDecoder) (bh : ChunkBasicHeader)
    (mh : ChunkMessageHeader) (l : List Nat) (h : ¬ l.length < mh.msg_length) :
    processChunk d bh mh l = .ok (some ⟨bh, mh, l⟩, d) := by
  simp only [processChunk, h, if_false]

theorem processChunk_new (cs : Nat) (cache : List (Nat × ChunkMessageHeader))
    (bh : ChunkBasicHeader) (mh : ChunkMessageHeader) (l : List Nat)
    (hlt : l.length < mh.msg_length) :
    processChunk ⟨cs, cache, []⟩ bh mh l =
      .ok (none, ⟨cs, cache, [(bh.chunk_stream_id, l)]⟩) := by
  simp [processChunk, hlt, alookup, ainsert, MAX_PARTIAL_CHUNKS]

theorem processChunk_append_emit (cs csid : Nat)
    (cache : List (Nat × ChunkMessageHeader)) (bh : ChunkBasicHeader)
    (mh : ChunkMessageHeader) (acc l : List Nat)
    (hbh : bh.chunk_stream_id = csid) (hlt : l.length < mh.msg_length)
    (hfull : (acc ++ l).length = mh.msg_length) :
    processChunk ⟨cs, cache, [(csid, acc)]⟩ bh mh l =
      .ok (some ⟨bh, mh, acc ++ l⟩, ⟨cs, cache, []⟩) := by
  simp only [processChunk, hbh, alookup, eq_self_iff_true, if_true, aremove]
  rw [if_pos hlt, if_pos hfull]

theorem processChunk_append_more (cs csid : Nat)
    (cache : List (Nat × ChunkMessageHeader)) (bh : ChunkBasicHeader)
    (mh : ChunkMessageHeader) (acc l : List Nat)
    (hbh : bh.chunk_stream_id = csid) (hlt : l.length < mh.msg_length)
    (hnot : ¬ (acc ++ l).length = mh.msg_length) :
    processChunk ⟨cs, cache, [(csid, acc)]⟩ bh mh l =
      .ok (none, ⟨cs, cache, [(csid, acc ++ l)]⟩) := by
  simp only [processChunk, hbh, alookup, eq_self_iff_true, if_true, ainsert]
  rw [if_pos hlt, if_neg hnot]

/-- One decode step on a format-3 continuation fragment that completes the message:
the accumulated buffer plus the final fragment reaches `msg_length`, so the chunk is
emitted and the assembler slot for the stream is cleared. -/
theorem readOne_cont_emit (csid cs : Nat) (hcs : 1 ≤ cs) (hcs1 : 2 ≤ csid)
    (hcs2 : csid ≤ 63) (mh : ChunkMessageHeader)
    (hml : mh.msg_length ≤ MAX_PARTIAL_PAYLOAD_SIZE)
    (hext : mh.was_extended_timestamp = false)
    (acc : List Nat) (b : Nat) (t : List Nat)
    (cache : List (Nat × ChunkMessageHeader)) (z : List Nat)
    (hacc : acc ≠ []) (hca : alookup csid cache = some mh)
    (hml2 : mh.msg_length = acc.length + (b :: t).length)
    (hle : (b :: t).length ≤ cs) :
    readOne ⟨cs, cache, [(csid, acc)]⟩ ((192 + csid) :: ((b :: t).take cs ++ z)) =
      .ok (some (some ⟨⟨3, csid⟩, mh, acc ++ (b :: t)⟩, ⟨cs, cache, []⟩, z)) := by
  have hlen0 : 0 < acc.length := List.length_pos.mpr hacc
  have htk : (b :: t).take cs = b :: t := List.take_of_length_le hle
  have hb := readBasicHeader_fmt3 csid hcs1 hcs2 ((b :: t) ++ z)
  have hm := readMessageHeader_fmt3_plain ⟨cs, cache, [(csid, acc)]⟩ csid mh
    ((b :: t) ++ z) hca hext
  have hg := getPayloadRange_eval cs csid cache acc mh (b :: t) z
    (by omega) (by omega)
  have hp := processChunk_append_emit cs csid cache ⟨3, csid⟩ mh acc (b :: t)
    rfl (by omega) (by simp only [List.length_append]; omega)
  rw [htk]
  simp only [readOne, hb, hm, hg, hp]

/-- One decode step on a format-3 continuation fragment that does not yet complete
the message: `chunk_size` bytes are appended to the stream's partial buffer. -/
theorem readOne_cont_more (csid cs : Nat) (hcs : 1 ≤ cs) (hcs1 : 2 ≤ csid)
    (hcs2 : csid ≤ 63) (mh : ChunkMessageHeader)
    (hml : mh.msg_length ≤ MAX_PARTIAL_PAYLOAD_SIZE)
    (hext : mh.was_extended_timestamp = false)
    (acc : List Nat) (b : Nat) (t : List Nat)
    (cache : List (Nat × ChunkMessageHeader)) (z : List Nat)
    (hacc : acc ≠ []) (hca : alookup csid cache = some mh)
    (hml2 : mh.msg_length = acc.length + (b :: t).length)
    (hgt : cs < (b :: t).length) :
    readOne ⟨cs, cache, [(csid, acc)]⟩ ((192 + csid) :: ((b :: t).take cs ++ z)) =
      .ok (some (none, ⟨cs, cache, [(csid, acc ++ (b :: t).take cs)]⟩, z)) := by
  have hlen0 : 0 < acc.length := List.length_pos.mpr hacc
  have htkl : ((b :: t).take cs).length = cs := by
    simp only [List.length_take]
    omega
  have hb := readBasicHeader_fmt3 csid hcs1 hcs2 ((b :: t).take cs ++ z)
  have hm := readMessageHeader_fmt3_plain ⟨cs, cache, [(csid, acc)]⟩ csid mh
    ((b :: t).take cs ++ z) hca hext
  have hg := getPayloadRange_eval cs csid cache acc mh ((b :: t).take cs) z
    (by omega) (by rw [htkl]; omega)
  have hp := processChunk_append_more cs csid cache ⟨3, csid⟩ mh acc
    ((b :: t).take cs) rfl (by rw [htkl]; omega)
    (by simp only [List.length_append, htkl]; omega)
  simp only [readOne, hb, hm, hg, hp]

/-- Decoding the format-3 continuation encoding of the remaining payload of an
in-flight message runs the loop to completion and emits the reassembled chunk,
leaving any following bytes untouched. -/
theorem decode_continuation (csid cs : Nat) (hcs : 1 ≤ cs) (hcs1 : 2 ≤ csid)
    (hcs2 : csid ≤ 63) (mh : ChunkMessageHeader)
    (hml : mh.msg_length ≤ MAX_PARTIAL_PAYLOAD_SIZE)
    (hext : mh.was_extended_timestamp = false) :
    ∀ (fuel : Nat) (acc rem : List Nat) (cache : List (Nat × ChunkMessageHeader))
      (extra : List Nat),
      rem.length ≤ fuel → acc ≠ [] → rem ≠ [] →
      alookup csid cache = some mh →
      mh.msg_length = acc.length + rem.length →
      readChunkFuel fuel ⟨cs, cache, [(csid, acc)]⟩ (encodeRest csid cs rem ++ extra) =
        .ok (some ⟨⟨3, csid⟩, mh, acc ++ rem⟩, ⟨cs, cache, []⟩, extra) := by
  intro fuel
  induction fuel with
  | zero =>
    intro acc rem cache extra h1 _ h3 _ _
    cases rem with
    | nil => exact absurd rfl h3
    | cons b t => simp at h1
  | succ n ih =>
    intro acc rem cache extra hlen hacc hrem hca hml2
    cases rem with
    | nil => exact absurd rfl hrem
    | cons b t =>
      rw [encodeRest_cons csid cs hcs, readChunkFuel]
      by_cases hle : (b :: t).length ≤ cs
      · have hdrop : (b :: t).drop cs = [] := List.drop_eq_nil_of_le hle
        rw [hdrop]
        simp only [encodeRest, encodeRestFuel, List.length_nil, List.append_nil,
          List.cons_append]
        rw [readOne_cont_emit csid cs hcs hcs1 hcs2 mh hml hext acc b t cache extra
          hacc hca hml2 hle]
      · push_neg at hle
        simp only [List.cons_append, List.append_assoc]
        rw [readOne_cont_more csid cs hcs hcs1 hcs2 mh hml hext acc b t cache
          (encodeRest csid cs ((b :: t).drop cs) ++ extra) hacc hca hml2 hle]
        dsimp only []
        have hle' : cs < t.length + 1 := by simpa using hle
        have hrem2 : (b :: t).drop cs ≠ [] := by
          intro hc
          have := congrArg List.length hc
          simp only [List.length_drop, List.length_cons, List.length_nil] at this
          omega
        have hlen2 : ((b :: t).drop cs).length ≤ n := by
          simp only [List.length_drop, List.length_cons]
          simp only [List.length_cons] at hlen
          omega
        have hacc2 : acc ++ (b :: t).take cs ≠ [] := by
          intro hc
          exact hacc (List.append_eq_nil.mp hc).1
        have hml3 : mh.msg_length =
            (acc ++ (b :: t).take cs).length + ((b :: t).drop cs).length := by
          simp only [List.length_append, List.length_take, List.length_drop]
          simp only [List.length_cons] at hml2 ⊢
          omega
        rw [ih (acc ++ (b :: t).take cs) ((b :: t).drop cs) cache extra hlen2 hacc2
          hrem2 hca hml3]
        rw [List.append_assoc, List.take_append_drop]

/-- One decode step on a conforming type-0 encoding of a message that fits in a
single chunk: the chunk is emitted directly and only the header cache changes. -/
theorem readOne_msg_emit (cs : Nat) (m : Message)
    (cache : List (Nat × ChunkMessageHeader)) (extra : List Nat)
    (hcs : 1 ≤ cs) (hwf : WellFormed m)
    (hroom : cache.length < MAX_PREVIOUS_CHUNK_HEADERS)
    (hle : m.payload.length ≤ cs) :
    readOne ⟨cs, cache, []⟩ (encodeMessage cs m ++ extra) =
      .ok (some (some ⟨⟨0, m.chunk_stream_id⟩, mhOf m, m.payload⟩,
        ⟨cs, ainsert m.chunk_stream_id (mhOf m) cache, []⟩, extra)) := by
  obtain ⟨h2, h63, hts, htid, hsid, hmax⟩ := hwf
  have htk : m.payload.take cs = m.payload := List.take_of_length_le hle
  have hdrop : m.payload.drop cs = [] := List.drop_eq_nil_of_le hle
  have hbuf : encodeMessage cs m ++ extra =
      m.chunk_stream_id :: (u24BE m.timestamp ++ (u24BE m.payload.length ++
        (m.msg_type_id :: (u32LE m.msg_stream_id ++ (m.payload ++ extra))))) := by
    simp [encodeMessage, htk, hdrop, encodeRest, encodeRestFuel, List.append_assoc]
  rw [hbuf]
  have hb := readBasicHeader_fmt0 m.chunk_stream_id h2 h63
    (u24BE m.timestamp ++ (u24BE m.payload.length ++
      (m.msg_type_id :: (u32LE m.msg_stream_id ++ (m.payload ++ extra)))))
  have hm := readMessageHeader_fmt0_eval cs cache [] m.chunk_stream_id m.timestamp
    m.payload.length m.msg_type_id m.msg_stream_id (m.payload ++ extra) hts
    (by unfold MAX_PARTIAL_PAYLOAD_SIZE at hmax; omega) htid hsid hroom
  have hg := getPayloadRange_eval_empty cs m.chunk_stream_id
    (ainsert m.chunk_stream_id (mhOf m) cache) (mhOf m) m.payload extra
    (by simp only [mhOf]; omega) (by simp only [mhOf]; omega)
  have hp := processChunk_emit_direct ⟨cs, ainsert m.chunk_stream_id (mhOf m) cache, []⟩
    ⟨0, m.chunk_stream_id⟩ (mhOf m) m.payload (by simp only [mhOf]; omega)
  simp only [readOne, hb, mhOf] at *
  simp only [readOne, hb, hm, hg, hp]

/-- One decode step on a conforming type-0 encoding of a message longer than one
chunk: the first `chunk_size` payload bytes open a fresh partial buffer. -/
theorem readOne_msg_more (cs : Nat) (m : Message)
    (cache : List (Nat × ChunkMessageHeader)) (extra : List Nat)
    (hcs : 1 ≤ cs) (hwf : WellFormed m)
    (hroom : cache.length < MAX_PREVIOUS_CHUNK_HEADERS)
    (hgt : cs < m.payload.length) :
    readOne ⟨cs, cache, []⟩ (encodeMessage cs m ++ extra) =
      .ok (some (none, ⟨cs, ainsert m.chunk_stream_id (mhOf m) cache,
        [(m.chunk_stream_id, m.payload.take cs)]⟩,
        encodeRest m.chunk_stream_id cs (m.payload.drop cs) ++ extra)) := by
  obtain ⟨h2, h63, hts, htid, hsid, hmax⟩ := hwf
  have hbuf : encodeMessage cs m ++ extra =
      m.chunk_stream_id :: (u24BE m.timestamp ++ (u24BE m.payload.length ++
        (m.msg_type_id :: (u32LE m.msg_stream_id ++ (m.payload.take cs ++
          (encodeRest m.chunk_stream_id cs (m.payload.drop cs) ++ extra)))))) := by
    simp [encodeMessage, List.append_assoc]
  rw [hbuf]
  have hb := readBasicHeader_fmt0 m.chunk_stream_id h2 h63
    (u24BE m.timestamp ++ (u24BE m.payload.length ++
      (m.msg_type_id :: (u32LE m.msg_stream_id ++ (m.payload.take cs ++
        (encodeRest m.chunk_stream_id cs (m.payload.drop cs) ++ extra))))))
  have hm := readMessageHeader_fmt0_eval cs cache [] m.chunk_stream_id m.timestamp
    m.payload.length m.msg_type_id m.msg_stream_id (m.payload.take cs ++
      (encodeRest m.chunk_stream_id cs (m.payload.drop cs) ++ extra)) hts
    (by unfold MAX_PARTIAL_PAYLOAD_SIZE at hmax; omega) htid hsid hroom
  have hg := getPayloadRange_eval_empty cs m.chunk_stream_id
    (ainsert m.chunk_stream_id (mhOf m) cache) (mhOf m) (m.payload.take cs)
    (encodeRest m.chunk_stream_id cs (m.payload.drop cs) ++ extra)
    (by simp only [mhOf]; omega) (by simp only [mhOf, List.length_take])
  have hp := processChunk_new cs (ainsert m.chunk_stream_id (mhOf m) cache)
    ⟨0, m.chunk_stream_id⟩ (mhOf m) (m.payload.take cs)
    (by simp only [mhOf, List.length_take]; omega)
  simp only [readOne, hb, mhOf] at *
  simp only [readOne, hb, hm, hg, hp]

/-- Decoding a conforming encoding of one well-formed message from a state with no
in-flight assembly consumes exactly the message's bytes and emits its chunk. -/
theorem decode_message (cs : Nat) (m : Message)
    (cache : List (Nat × ChunkMessageHeader)) (extra : List Nat) (fuel : Nat)
    (hcs : 1 ≤ cs) (hwf : WellFormed m)
    (hroom : cache.length < MAX_PREVIOUS_CHUNK_HEADERS)
    (hfuel : m.payload.length < fuel) :
    readChunkFuel fuel ⟨cs, cache, []⟩ (encodeMessage cs m ++ extra) =
      .ok (some (chunkOf cs m), ⟨cs, ainsert m.chunk_stream_id (mhOf m) cache, []⟩,
        extra) := by
  cases fuel with
  | zero => omega
  | succ n =>
    rw [readChunkFuel]
    by_cases hle : m.payload.length ≤ cs
    · rw [readOne_msg_emit cs m cache extra hcs hwf hroom hle]
      simp only [chunkOf, if_pos hle]
    · push_neg at hle
      rw [readOne_msg_more cs m cache extra hcs hwf hroom hle]
      dsimp only []
      obtain ⟨h2, h63, hts, htid, hsid, hmax⟩ := hwf
      have hlen2 : (m.payload.drop cs).length ≤ n := by
        simp only [List.length_drop]
        omega
      have hacc2 : m.payload.take cs ≠ [] := by
        apply List.ne_nil_of_length_pos
        simp only [List.length_take]
        omega
      have hrem2 : m.payload.drop cs ≠ [] := by
        apply List.ne_nil_of_length_pos
        simp only [List.length_drop]
        omega
      have hml3 : (mhOf m).msg_length =
          (m.payload.take cs).length + (m.payload.drop cs).length := by
        simp only [mhOf, List.length_take, List.length_drop]
        omega
      rw [decode_continuation m.chunk_stream_id cs hcs h2 h63 (mhOf m)
        (by simp only [mhOf]; omega) rfl n (m.payload.take cs) (m.payload.drop cs)
        (ainsert m.chunk_stream_id (mhOf m) cache) extra hlen2 hacc2 hrem2
        (alookup_ainsert _ _ _) hml3]
      rw [List.take_append_drop]
      simp only [chunkOf, if_neg (by omega : ¬ m.payload.length ≤ cs)]

/-- Decoding the back-to-back conforming encodings of a sequence of well-formed
messages on one chunk stream id yields exactly their chunks, in order. -/
theorem decode_messages (cs csid : Nat) (hcs : 1 ≤ cs) :
    ∀ (ms : List Message) (cache : List (Nat × ChunkMessageHeader)),
      (∀ m ∈ ms, WellFormed m ∧ m.chunk_stream_id = csid) →
      (cache = [] ∨ ∃ hh, cache = [(csid, hh)]) →
      decodeAll ms.length ⟨cs, cache, []⟩ (encodeMessages cs ms) =
        .ok (ms.map (chunkOf cs)) := by
  intro ms
  induction ms with
  | nil => intro cache _ _; rfl
  | cons m tl ih =>
    intro cache hwf hinv
    obtain ⟨hm, hmcs⟩ := hwf m (List.mem_cons_self m tl)
    have hwtl : ∀ x ∈ tl, WellFormed x ∧ x.chunk_stream_id = csid :=
      fun x hx => hwf x (List.mem_cons_of_mem m hx)
    have hroom : cache.length < MAX_PREVIOUS_CHUNK_HEADERS := by
      rcases hinv with h | ⟨hh, h⟩ <;> subst h <;> simp [MAX_PREVIOUS_CHUNK_HEADERS]
    have hbuf : encodeMessages cs (m :: tl) =
        encodeMessage cs m ++ encodeMessages cs tl := by
      simp [encodeMessages]
    rw [show (m :: tl).length = tl.length + 1 from rfl, decodeAll, hbuf]
    have hstep := decode_message cs m cache (encodeMessages cs tl)
      ((encodeMessage cs m ++ encodeMessages cs tl).length + 1) hcs hm hroom
      (by have := encodeMessage_length cs m hcs
          simp only [List.length_append]
          omega)
    simp only [read_chunk, hstep]
    have hinv' : ainsert m.chunk_stream_id (mhOf m) cache = [] ∨
        ∃ hh, ainsert m.chunk_stream_id (mhOf m) cache = [(csid, hh)] := by
      rcases hinv with h | ⟨hh, h⟩ <;> subst h
      · exact .inr ⟨mhOf m, by simp [ainsert, hmcs]⟩
      · exact .inr ⟨mhOf m, by simp [ainsert, hmcs]⟩
    rw [ih (ainsert m.chunk_stream_id (mhOf m) cache) hwtl hinv']
    rfl

theorem chunkTuple_chunkOf (cs : Nat) (m : Message) :
    chunkTuple (chunkOf cs m) = msgTuple m := by
  unfold chunkOf
  split <;> rfl

/-- C3: for every byte sequence a conforming chunk encoder produces for a sequence of
well-formed messages on one chunk stream with the decoder's chunk size, repeated
`read_chunk` calls recover exactly the original `(msg_type_id, msg_stream_id,
timestamp, payload)` tuples; in particular a message written by
`NetStreamWriter::write_on_status` through the chunk encoder decodes to one chunk with
`chunk_stream_id = 3`, `msg_type_id = 0x14`, `msg_stream_id = 0` and the original AMF0
payload bytes. -/
theorem c3_encoder_decoder_round_trip :
    (∀ (cs csid : Nat) (ms : List Message), 1 ≤ cs →
      (∀ m ∈ ms, WellFormed m ∧ m.chunk_stream_id = csid) →
      (decodeAll ms.length ⟨cs, [], []⟩ (encodeMessages cs ms)).map
          (List.map chunkTuple) =
        .ok (ms.map msgTuple)) ∧
    (∀ payload : List Nat, payload.length ≤ MAX_PARTIAL_PAYLOAD_SIZE →
      ∃ c d, read_chunk ChunkDecoder.default (write_on_status 128 payload) =
          .ok (some c, d, []) ∧
        c.basic_header.chunk_stream_id = 3 ∧ c.message_header.msg_type_id = 0x14 ∧
        c.message_header.msg_stream_id = 0 ∧ c.message_header.timestamp = 0 ∧
        c.payload = payload) := by
  constructor
  · intro cs csid ms hcs hwf
    rw [decode_messages cs csid hcs ms [] hwf (.inl rfl)]
    simp only [Except.map, List.map_map]
    congr 1
    apply List.map_congr_left
    intro m _
    exact chunkTuple_chunkOf cs m
  · intro payload hmax
    have hwf : WellFormed (onStatusMessage payload) := by
      show 2 ≤ 3 ∧ 3 ≤ 63 ∧ (0 : Nat) < 16777215 ∧ validMsgTypeID 20 = true ∧
        (0 : Nat) < 4294967296 ∧ payload.length ≤ MAX_PARTIAL_PAYLOAD_SIZE
      exact ⟨by omega, by omega, by omega, by decide, by omega, hmax⟩
    have hstep := decode_message 128 (onStatusMessage payload) [] []
      ((encodeMessage 128 (onStatusMessage payload) ++ []).length + 1) (by omega) hwf
      (by simp [MAX_PREVIOUS_CHUNK_HEADERS])
      (by have h := encodeMessage_length 128 (onStatusMessage payload) (by omega)
          simp only [List.length_append, List.length_nil]
          omega)
    refine ⟨chunkOf 128 (onStatusMessage payload),
      ⟨128, ainsert (onStatusMessage payload).chunk_stream_id
        (mhOf (onStatusMessage payload)) [], []⟩, ?_, ?_, ?_, ?_, ?_, ?_⟩
    · simp only [read_chunk]
      rw [show write_on_status 128 payload =
          encodeMessage 128 (onStatusMessage payload) ++ [] from
        (List.append_nil _).symm]
      exact hstep
    · unfold chunkOf
      split <;> rfl
    · unfold chunkOf
      split <;> rfl
    · unfold chunkOf
      split <;> rfl
    · unfold chunkOf
      split <;> rfl
    · unfold chunkOf
      split <;> rfl

/-- C3 witness: the round trip evaluated on a concrete two-message sequence (chunk
size 1, so the first message fragments) and on a concrete `write_on_status` payload. -/
theorem c3_encoder_decoder_round_trip_witness :
    (decodeAll 2 ⟨1, [], []⟩
        (encodeMessages 1 [⟨2, 0, 9, 0, [7, 7]⟩, ⟨2, 5, 8, 1, []⟩])).map
        (List.map chunkTuple) =
      .ok ([⟨2, 0, 9, 0, [7, 7]⟩, ⟨2, 5, 8, 1, []⟩].map msgTuple) ∧
    ∃ c d, read_chunk ChunkDecoder.default (write_on_status 128 [1, 2, 3]) =
        .ok (some c, d, []) ∧
      c.basic_header.chunk_stream_id = 3 ∧ c.message_header.msg_type_id = 0x14 ∧
      c.message_header.msg_stream_id = 0 ∧ c.message_header.timestamp = 0 ∧
      c.payload = [1, 2, 3] := by
  constructor
  · exact c3_encoder_decoder_round_trip.1 1 2 [⟨2, 0, 9, 0, [7, 7]⟩, ⟨2, 5, 8, 1, []⟩]
      (by decide) (by decide)
  · exact c3_encoder_decoder_round_trip.2 [1, 2, 3] (by decide)

/-- C2 counterexample: the claim "every call consumes either exactly the bytes of one
header plus one fragment, or zero bytes" is false.  On the 278-byte two-pair buffer of
the multi-stream test, `read_chunk` consumes both pairs in one call: the remainder is
neither the whole buffer (zero consumed) nor the remainder after exactly one
(header, fragment) pair. -/
theorem c2_atomicity_counterexample :
    ¬ (∀ res d' rest, read_chunk ChunkDecoder.default c4Start = .ok (res, d', rest) →
        rest = c4Start ∨
        ∃ d1, readOne ChunkDecoder.default c4Start = .ok (some (res, d1, rest))) := by
  intro hclaim
  have h := hclaim none c4StateA [] (by decide)
  rcases h with h | ⟨d1, h⟩
  · exact absurd h (by decide)
  · have hone : readOne ChunkDecoder.default c4Start =
        .ok (some (none, ⟨128, [(3, c4H3)], [(3, List.replicate 128 3)]⟩,
          [4, 0x00, 0x00, 0x00, 0x00, 0x01, 0x00, 0x08, 0x00, 0x03, 0x00, 0x00] ++
            List.replicate 128 4)) := by decide
    rw [hone] at h
    simp at h

end Rtmp
